import Mathlib

/-!
Shallow embedding of the HackWreck repository (hackathon project catalog):
`DevScrape/validators.py`, `DevScrape/gemini_client.py`, `DevScrape/database.py`,
`DevScrape/scrape.py` and the API layer `main.py`.

Python strings are embedded as `List Char` (sequences of code points); the
relational store is a list of rows plus an autoincrement counter; external
collaborators (the GitHub metadata API, the Gemini model, `json.loads`, and
store-level failures) are abstracted as parameters of an `Env` record.
-/

namespace HackWreck

/-! ## Python string primitives over `List Char` -/

/-- Whitespace test used by Python `str.strip()` (ASCII whitespace suffices here). -/
def isWS (c : Char) : Bool := c.isWhitespace

/-- `dropLit lit s` returns `some rest` when `s = lit ++ rest`, else `none`.
This is the primitive for literal matching and substring search. -/
def dropLit : List Char → List Char → Option (List Char)
  | [], s => some s
  | _ :: _, [] => none
  | c :: ls, d :: s => if c == d then dropLit ls s else none

/-- Index of the first occurrence of `sub` in `s` (Python `str.find`, the
non-negative case). -/
def firstIdx (s sub : List Char) : Option Nat :=
  if (dropLit sub s).isSome then some 0
  else
    match s with
    | [] => none
    | _ :: s' => (firstIdx s' sub).map (· + 1)

/-- Python `s.find(sub)`: index of first occurrence, `-1` when absent. -/
def pyFind (s sub : List Char) : Int :=
  match firstIdx s sub with
  | some i => (i : Int)
  | none => -1

/-- Clamp a (possibly negative) Python index into `[0, n]`. -/
def pyIdx (n : Nat) (i : Int) : Nat :=
  let j := if i < 0 then i + n else i
  if j < 0 then 0 else min j.toNat n

/-- Python `s.find(sub, start)`. -/
def pyFindFrom (s sub : List Char) (start : Int) : Int :=
  let a := pyIdx s.length start
  match firstIdx (s.drop a) sub with
  | some i => ((i + a : Nat) : Int)
  | none => -1

/-- Python slice `s[a:b]` (negative indices count from the end). -/
def pySlice (s : List Char) (a b : Int) : List Char :=
  (s.take (pyIdx s.length b)).drop (pyIdx s.length a)

/-- Python `str.strip()`. -/
def stripWS (s : List Char) : List Char :=
  ((s.dropWhile isWS).reverse.dropWhile isWS).reverse

/-! ## `DevScrape/validators.py` -/

/-- Character class of the owner capture group `[a-zA-Z0-9_-]` in the URL regex. -/
def ownerChar (c : Char) : Bool := c.isAlphanum || c == '_' || c == '-'

/-- Character class of the repository capture group `[a-zA-Z0-9._-]` in the URL regex. -/
def repoChar (c : Char) : Bool := c.isAlphanum || c == '.' || c == '_' || c == '-'

/-- After the lazily captured repository name, the regex
`(?:\.git)?/?$` accepts exactly these four remainders. -/
def isTailOk (s : List Char) : Bool :=
  s == [] || s == "/".toList || s == ".git".toList || s == ".git/".toList

/-- The lazy capture `([a-zA-Z0-9._-]+?)(?:\.git)?/?$` of the URL regex:
the shortest nonempty run of repository characters whose remainder is
accepted by `isTailOk` (lazy quantifiers try short captures first). -/
def repoMatch : List Char → Option (List Char)
  | [] => none
  | c :: rest =>
    if repoChar c then
      if isTailOk rest then some [c]
      else (repoMatch rest).map (c :: ·)
    else none

/-- The `([a-zA-Z0-9_-]+)/([a-zA-Z0-9._-]+?)(?:\.git)?/?$` part of the URL
regex: greedy owner capture, a literal slash, then the lazy repository
capture. -/
def parse_owner_repo (s3 : List Char) : Option (List Char × List Char) :=
  let username := s3.takeWhile ownerChar
  if username.isEmpty then none
  else
    match s3.drop username.length with
    | '/' :: s4 => (repoMatch s4).map (fun r => (username, r))
    | _ => none

/-- The regex
`^https?://(?:www\.)?github\.com/([a-zA-Z0-9_-]+)/([a-zA-Z0-9._-]+?)(?:\.git)?/?$`
of `validate_github_url` (validators.py line 17) with `$` read as true
end-of-string anchoring, returning the two capture groups `(username, repo)`.
Python additionally lets `$` match just before one trailing newline; that is
layered on in `parse_github_url`. -/
def parse_github_url_core (url : List Char) : Option (List Char × List Char) :=
  match ((dropLit "https://".toList url).orElse (fun _ => dropLit "http://".toList url)) with
  | none => none
  | some s1 =>
    let s2 := match dropLit "www.".toList s1 with
      | some x => x
      | none => s1
    match dropLit "github.com/".toList s2 with
    | none => none
    | some s3 => parse_owner_repo s3

/-- Remove one trailing newline, if any: Python `re` (without `MULTILINE`)
lets `$` match at the end of the string or just before a single final
newline, and a newline can be consumed by no other part of the pattern. -/
def chomp_newline (url : List Char) : List Char :=
  if url.getLast? = some '\n' then url.dropLast else url

/-- The full `re.match` of `validate_github_url` (validators.py line 17):
the anchored core applied after discounting the one trailing newline that
Python `$` tolerates. -/
def parse_github_url (url : List Char) : Option (List Char × List Char) :=
  parse_github_url_core (chomp_newline url)

/-- Python `repo.rstrip('.git')` (validators.py line 26): removes ALL trailing
characters drawn from the set `{'.', 'g', 'i', 't'}`, not just a `.git` suffix. -/
def rstrip_git (s : List Char) : List Char :=
  (s.reverse.dropWhile (fun c => c == '.' || c == 'g' || c == 'i' || c == 't')).reverse

/-- Outcome of the `requests.get` existence check: an HTTP status code together
with whether the JSON body has a truthy `name` field, or a raised
`requests.exceptions.RequestException`. -/
inductive HttpResult where
  | status (code : Nat) (hasName : Bool)
  | netError (msg : String)
  deriving DecidableEq

/-- The `api_url` built at validators.py line 29. -/
def mk_api_url (username repo : List Char) : String :=
  "https://api.github.com/repos/" ++ String.mk username ++ "/" ++ String.mk repo

/-- The remote-existence part of `validate_github_url`
(validators.py lines 30-48); the fail-open 403 branch also prints a warning,
a side effect not modelled. -/
def remote_check (username repo : List Char) (resp : HttpResult) : Bool × Option String :=
  match resp with
  | .netError e => (false, some ("Network error checking repository: " ++ e))
  | .status code hasName =>
    if code == 404 then
      (false, some ("Repository not found: " ++ String.mk username ++ "/" ++ String.mk repo ++ " (404)"))
    else if code == 403 then (true, none)
    else if code != 200 then
      (false, some ("Could not verify repository (HTTP " ++ toString code ++ ")"))
    else if !hasName then (false, some "URL does not point to a valid repository")
    else (true, none)

/-- `validate_github_url` (validators.py lines 6-48; the identical copy lives at
scrape.py lines 18-57). The network is abstracted as `fetch`, keyed by the
requested API URL. -/
def validate_github_url (fetch : String → HttpResult) (url : List Char) : Bool × Option String :=
  match parse_github_url url with
  | none => (false, some "Invalid GitHub URL format. Expected: https://github.com/username/repo")
  | some (username, repo) =>
    let repo := rstrip_git repo
    remote_check username repo (fetch (mk_api_url username repo))

/-- The API URL actually requested by `validate_github_url` for a given input,
`none` when the format check fails and no remote lookup happens. -/
def api_url_for (url : List Char) : Option String :=
  (parse_github_url url).map (fun p => mk_api_url p.1 (rstrip_git p.2))

/-- Spec-side shape from section 4.1: the URL decomposes as
`scheme://[www.]github.com/owner/repo[.git][/]` with scheme `http` or `https`,
a nonempty owner over the owner character class and a nonempty repository name
over the repository character class. Stated independently of the parser, to be
compared with `parse_github_url`. -/
def SpecShape (url : List Char) : Prop :=
  ∃ scheme www owner repo git slash : List Char,
    (scheme = "http".toList ∨ scheme = "https".toList) ∧
    (www = [] ∨ www = "www.".toList) ∧
    owner ≠ [] ∧ (∀ c ∈ owner, ownerChar c) ∧
    repo ≠ [] ∧ (∀ c ∈ repo, repoChar c) ∧
    (git = [] ∨ git = ".git".toList) ∧
    (slash = [] ∨ slash = "/".toList) ∧
    url = scheme ++ "://".toList ++ www ++ "github.com/".toList ++
          owner ++ "/".toList ++ repo ++ git ++ slash

/-- The language actually accepted by the source regex: the spec shape,
optionally followed by the single trailing newline that Python `$`
tolerates. -/
def SpecShapeNL (url : List Char) : Prop :=
  SpecShape url ∨ ∃ u : List Char, url = u ++ ['\n'] ∧ SpecShape u

/-! ## `DevScrape/gemini_client.py` -/

/-- The backtick character, `'\x60'`. -/
def btick : Char := Char.ofNat 96

/-- The closing/plain fence marker, three backticks. -/
def fence3 : List Char := [btick, btick, btick]

/-- The JSON fence marker, three backticks followed by `json`. -/
def fenceJson : List Char := [btick, btick, btick, 'j', 's', 'o', 'n']

/-- The markdown-fence stripping of `parse_json_response`
(gemini_client.py lines 138-148; the same code is inlined at
scrape.py lines 110-121): strip the text, then if a JSON fence marker occurs
take what lies between the end of the first marker and the next plain fence;
otherwise do the same for a plain fence; otherwise keep the raw text. -/
def stripFence (response_text : List Char) : List Char :=
  let t := stripWS response_text
  if pyFind t fenceJson ≥ 0 then
    let start : Int := pyFind t fenceJson + 7
    stripWS (pySlice t start (pyFindFrom t fence3 start))
  else if pyFind t fence3 ≥ 0 then
    let start : Int := pyFind t fence3 + 3
    stripWS (pySlice t start (pyFindFrom t fence3 start))
  else t

/-- `parse_json_response` (gemini_client.py lines 128-150): fence stripping
followed by `json.loads`, the latter an external collaborator abstracted as
`loads`. -/
def parse_json_response {J : Type} (loads : List Char → J) (response_text : List Char) : J :=
  loads (stripFence response_text)

/-- A text wrapped in a markdown JSON code fence. -/
def wrapJson (t : List Char) : List Char := fenceJson ++ '\n' :: (t ++ '\n' :: fence3)

/-- A text wrapped in a plain markdown code fence. -/
def wrapPlain (t : List Char) : List Char := fence3 ++ '\n' :: (t ++ '\n' :: fence3)

/-! ## `DevScrape/database.py` (the Snowflake twin `database_snowflake.py`
runs the identical query set) -/

/-- One row of the `hacks` table (devWeb.py schema; the unused `tableNumber`
column is never written by the code under scrutiny). `ai_score` is embedded
as a rational. -/
structure Hack where
  id : Nat
  name : String
  framework : String
  githubLink : String
  place : String
  topic : String
  descriptions : String
  ai_score : ℚ
  ai_reasoning : String
  deriving DecidableEq, Repr

/-- The relational store: rows in insertion order plus the autoincrement
counter for `id`. -/
structure DB where
  rows : List Hack
  nextId : Nat
  deriving DecidableEq, Repr

/-- `check_duplicate_project` (database.py lines 6-24):
`SELECT id, name FROM hacks WHERE githubLink = ?` and `fetchone`. -/
def check_duplicate_project (db : DB) (github_url : String) : Bool × Option Nat × Option String :=
  match db.rows.find? (fun h => h.githubLink == github_url) with
  | some h => (true, some h.id, some h.name)
  | none => (false, none, none)

/-- `insert_project` (database.py lines 27-56). Whether the store raises
`sqlite3.Error` on this statement is external; it enters as `storeOk`:
on failure the error is logged and `False` returned, nothing is stored. -/
def insert_project (storeOk : Bool) (db : DB) (name framework github_url status topic descriptions : String)
    (ai_score : ℚ) (ai_reasoning : String) : Bool × DB :=
  if storeOk then
    (true,
      { rows := db.rows ++ [{ id := db.nextId, name := name, framework := framework,
                              githubLink := github_url, place := status, topic := topic,
                              descriptions := descriptions, ai_score := ai_score,
                              ai_reasoning := ai_reasoning }],
        nextId := db.nextId + 1 })
  else (false, db)

/-- Result dictionary of `delete_by_id`. -/
structure DeleteResult where
  success : Bool
  message : String
  project_name : Option String
  deriving DecidableEq, Repr

/-- `delete_by_id` (database.py lines 59-95): look the id up with `fetchone`;
if absent report not-found and change nothing, otherwise
`DELETE FROM hacks WHERE id = ?` and report the deleted row's name. -/
def delete_by_id (db : DB) (project_id : Nat) : DeleteResult × DB :=
  match db.rows.find? (fun h => h.id == project_id) with
  | none =>
    ({ success := false,
       message := "Project with ID " ++ toString project_id ++ " not found",
       project_name := none }, db)
  | some p =>
    ({ success := true,
       message := "Successfully deleted project \x27" ++ p.name ++ "\x27 (ID: " ++ toString project_id ++ ")",
       project_name := some p.name },
     { db with rows := db.rows.filter (fun h => !(h.id == project_id)) })

/-- `LOWER(place) LIKE '%winner%'`: case-insensitive substring test used by
every winner query. -/
def is_winner (h : Hack) : Bool :=
  (pyFind (h.place.toList.map Char.toLower) "winner".toList) ≥ 0

/-- Stable insertion into a list sorted by `le` (model of SQL `ORDER BY`). -/
def insertSorted (le : α → α → Bool) (a : α) : List α → List α
  | [] => [a]
  | b :: l => if le a b then a :: b :: l else b :: insertSorted le a l

/-- Sorting by `le` (model of SQL `ORDER BY`). -/
def sortBy (le : α → α → Bool) : List α → List α
  | [] => []
  | a :: l => insertSorted le a (sortBy le l)

/-- `ORDER BY ai_score DESC`. -/
def byScoreDesc (l : List Hack) : List Hack :=
  sortBy (fun a b => decide (b.ai_score ≤ a.ai_score)) l

/-- `get_participants` (database.py lines 148-169):
non-winners ordered by score descending, limited. -/
def get_participants (db : DB) (limit : Nat := 5) : List Hack :=
  (byScoreDesc (db.rows.filter (fun h => !is_winner h))).take limit

/-- `get_top_winners` (database.py lines 200-221). -/
def get_top_winners (db : DB) (limit : Nat := 5) : List Hack :=
  (byScoreDesc (db.rows.filter is_winner)).take limit

/-- First-occurrence list of distinct keys (model of SQL `GROUP BY` keys). -/
def uniqueKeys : List String → List String
  | [] => []
  | k :: l => k :: (uniqueKeys l).filter (fun x => !(x == k))

/-- `SELECT key, COUNT(*) ... GROUP BY key ORDER BY cnt DESC LIMIT 5`. -/
def group_counts_top5 (keys : List String) : List (String × Nat) :=
  (sortBy (fun a b => decide (b.2 ≤ a.2)) ((uniqueKeys keys).map (fun k => (k, keys.count k)))).take 5

/-- Result dictionary of `get_database_stats`. -/
structure Stats where
  total_projects : Nat
  total_winners : Nat
  avg_winner_score : ℚ
  top_frameworks : List (String × Nat)
  top_categories : List (String × Nat)
  deriving DecidableEq, Repr

/-- `get_database_stats` (database.py lines 224-271). `AVG` over an empty set
is SQL `NULL`, turned into `0` by the `or 0` in the source. -/
def get_database_stats (db : DB) : Stats :=
  let winners := db.rows.filter is_winner
  { total_projects := db.rows.length
    total_winners := winners.length
    avg_winner_score :=
      if winners.isEmpty then 0 else ((winners.map Hack.ai_score).sum) / (winners.length : ℚ)
    top_frameworks := group_counts_top5 (winners.map Hack.framework)
    top_categories := group_counts_top5 (winners.map Hack.topic) }

/-! ## `DevScrape/scrape.py` / the orchestration described in spec 4.3 -/

/-- Structured data the model is asked to return for one repository. -/
structure HackData where
  name : String
  framework : String
  topic : String
  descriptions : String
  ai_score : ℚ
  ai_reasoning : String
  deriving DecidableEq, Repr

/-- Outcome of the `client.models.generate_content` call: response text, or a
raised exception. -/
inductive GeminiResult where
  | text (t : List Char)
  | raised (msg : String)
  deriving DecidableEq

/-- External collaborators of one orchestrator run: the GitHub metadata API
(keyed by requested API URL), the Gemini model (keyed by url and status),
`json.loads` together with the keyed field extraction (an `Except` to carry the
raised `ValueError`/`KeyError` message), and per-URL store health. -/
structure Env where
  fetch : String → HttpResult
  gemini : String → String → GeminiResult
  jsonLoads : List Char → Except String HackData
  storeOk : String → Bool

/-- `auto_insert_hack` (scrape.py lines 59-138): validate the URL, abort with
`False` on failure; abort with `False` when the link already exists; call the
model and parse its response, propagating a raised exception (`.error`);
insert the parsed record and return the insert's success boolean.
The final step is `insert_project` of database.py (spec 4.3 step 5 / 4.2),
which is how the package's `backend` module, re-exported to main.py, composes
these pieces; scrape.py's inlined insert differs only in not catching store
errors. -/
def auto_insert_hack (env : Env) (db : DB) (github_url status : String) :
    Except String Bool × DB :=
  if !(validate_github_url env.fetch github_url.toList).1 then (.ok false, db)
  else if (check_duplicate_project db github_url).1 then (.ok false, db)
  else
    match env.gemini github_url status with
    | .raised e => (.error e, db)
    | .text t =>
      match env.jsonLoads (stripFence t) with
      | .error e => (.error e, db)
      | .ok d =>
        let r := insert_project (env.storeOk github_url) db d.name d.framework
          github_url status d.topic d.descriptions d.ai_score d.ai_reasoning
        (.ok r.1, r.2)

/-- State threaded through the batch loop: the success counter, the
accumulated `(url, error)` failure list and the store. -/
structure BatchState where
  success_count : Nat
  failed : List (String × String)
  db : DB
  deriving DecidableEq

/-- Python `line.split(',', 1)`: the part before the first comma and, when a
comma exists, the part after it. The second component is `some` exactly when
the line contains a comma. -/
def splitFirstComma : List Char → List Char × Option (List Char)
  | [] => ([], none)
  | c :: rest =>
    if c == ',' then ([], some rest)
    else
      let p := splitFirstComma rest
      (c :: p.1, p.2)

/-- One iteration of the loop in `batch_insert_from_file`
(scrape.py lines 165-191): strip the line; skip blanks and `#` comments;
split `url[, status]` at the first comma (Python `split(',', 1)`), falling
back to the default status; record a failure when the status is missing or
empty (Python falsiness); otherwise run `auto_insert_hack`, counting any
non-raising call as a success and recording a raised exception as a failure. -/
def batch_step (env : Env) (default_status : Option (List Char)) (st : BatchState)
    (rawLine : List Char) : BatchState :=
  let line := stripWS rawLine
  if line.isEmpty || (dropLit "#".toList line).isSome then st
  else
    let (github_url, statusOpt) :=
      if line.contains ',' then
        (stripWS (splitFirstComma line).1, some (stripWS ((splitFirstComma line).2.getD [])))
      else (line, default_status)
    match statusOpt with
    | none => { st with failed := st.failed ++ [(String.mk github_url, "No status")] }
    | some status =>
      if status.isEmpty then
        { st with failed := st.failed ++ [(String.mk github_url, "No status")] }
      else
        match auto_insert_hack env st.db (String.mk github_url) (String.mk status) with
        | (.ok _, db') => { st with success_count := st.success_count + 1, db := db' }
        | (.error e, db') =>
          { st with failed := st.failed ++ [(String.mk github_url, e)], db := db' }

/-- `batch_insert_from_file` (scrape.py lines 140-198) after the file has been
read into `lines`: fold the per-line step over the file, starting from zero
successes and no failures. File existence, `total` and the printed summary are
I/O, not modelled. -/
def batch_insert_from_file (env : Env) (db : DB) (lines : List (List Char))
    (default_status : Option (List Char)) : BatchState :=
  lines.foldl (batch_step env default_status) ⟨0, [], db⟩

/-! ## `main.py` API surface -/

/-- Response model of `POST /api/insert`. -/
structure InsertResponse where
  success : Bool
  message : String
  project_name : Option String
  deriving DecidableEq, Repr

/-- `insert_project` endpoint (main.py lines 166-186): `True` maps to the
success message, `False` to the fixed duplicate message, and a raised
exception to HTTP 500 with the exception text. -/
def insert_project_endpoint (env : Env) (db : DB) (github_url status : String) :
    Except (Nat × String) InsertResponse × DB :=
  match auto_insert_hack env db github_url status with
  | (.ok true, db') =>
    (.ok { success := true, message := "Project successfully added", project_name := none }, db')
  | (.ok false, db') =>
    (.ok { success := false, message := "Duplicate project - already exists in database",
           project_name := none }, db')
  | (.error e, db') => (.error (500, e), db')

/-- `delete_project` endpoint (main.py lines 284-294): a failed
`delete_by_id` surfaces as HTTP 404 with the result's message. -/
def delete_project_endpoint (db : DB) (project_id : Nat) :
    Except (Nat × String) DeleteResult × DB :=
  let (result, db') := delete_by_id db project_id
  if !result.success then (.error (404, result.message), db')
  else (.ok result, db')

/-- Round half to even at integer precision (Python `round`). -/
def roundHalfEven (q : ℚ) : ℤ :=
  let f := ⌊q⌋
  let r := q - (f : ℚ)
  if r < 1/2 then f else if r > 1/2 then f + 1 else if f % 2 = 0 then f else f + 1

/-- Python `round(x, 1)`. -/
def pyRound1 (q : ℚ) : ℚ := (roundHalfEven (q * 10) : ℚ) / 10

/-- Response of `GET /api/stats`. -/
structure ApiStats where
  total_projects : Nat
  total_winners : Nat
  total_participants : Nat
  avg_winner_score : ℚ
  top_frameworks : List (String × Nat)
  top_categories : List (String × Nat)
  deriving DecidableEq, Repr

/-- `get_stats` endpoint (main.py lines 267-281): re-exports the gateway
stats, deriving `total_participants` as the difference of the two counts. -/
def get_stats_endpoint (db : DB) : ApiStats :=
  let stats := get_database_stats db
  { total_projects := stats.total_projects
    total_winners := stats.total_winners
    total_participants := stats.total_projects - stats.total_winners
    avg_winner_score := pyRound1 stats.avg_winner_score
    top_frameworks := stats.top_frameworks
    top_categories := stats.top_categories }

/-! ## Concrete instances used by the witness theorems -/

/-- An environment in which every external collaborator succeeds. -/
def envA : Env :=
  { fetch := fun _ => .status 200 true
    gemini := fun _ _ => .text "ok".toList
    jsonLoads := fun _ => .ok ⟨"Widget", "Go", "AI", "Desc", 7, "Why"⟩
    storeOk := fun _ => true }

/-- The empty store. -/
def dbE : DB := ⟨[], 1⟩

/-- A format-valid URL. -/
def url0 : String := "https://github.com/acme/widget"

/-- The row `auto_insert_hack envA dbE url0 "winner"` stores. -/
def rowA : Hack := ⟨1, "Widget", "Go", url0, "winner", "AI", "Desc", 7, "Why"⟩

/-- The store after that first insert. -/
def dbA1 : DB := ⟨[rowA], 2⟩

/-- An environment whose existence check answers 404, failing validation. -/
def envBad : Env := { envA with fetch := fun _ => .status 404 true }

/-- An environment whose store rejects every insert. -/
def envNoStore : Env := { envA with storeOk := fun _ => false }

/-- An existence check that raises a network error. -/
def fetchNet : String → HttpResult := fun _ => .netError "boom"

/-- An existence check answering 404. -/
def fetch404 : String → HttpResult := fun _ => .status 404 true

/-- An existence check answering 403. -/
def fetch403 : String → HttpResult := fun _ => .status 403 false

/-- An existence check answering 500. -/
def fetch500 : String → HttpResult := fun _ => .status 500 true

/-! ## General lemmas -/

theorem length_filter_split (p : α → Bool) (l : List α) :
    (l.filter p).length + (l.filter (fun a => !p a)).length = l.length := by
  induction l with
  | nil => rfl
  | cons a l ih =>
    by_cases h : p a <;> simp [List.filter_cons, h] <;> omega

theorem dropLit_eq_some {a s r : List Char} (h : dropLit a s = some r) : s = a ++ r := by
  induction a generalizing s with
  | nil => simpa [dropLit] using h
  | cons c a ih =>
    cases s with
    | nil => simp [dropLit] at h
    | cons d s' =>
      rw [dropLit] at h
      by_cases hc : (c == d) = true
      · rw [if_pos hc] at h
        rw [eq_of_beq hc]
        simpa using ih h
      · rw [if_neg hc] at h
        exact absurd h (by simp)

theorem takeWhile_append_sep {p : Char → Bool} {a b : List Char} {sep : Char}
    (ha : ∀ c ∈ a, p c = true) (hsep : p sep = false) :
    (a ++ sep :: b).takeWhile p = a := by
  induction a with
  | nil => simp [List.takeWhile_cons, hsep]
  | cons c a ih =>
    have hc : p c = true := ha c (by simp)
    simp only [List.cons_append, List.takeWhile_cons, hc, if_true]
    rw [ih (fun x hx => ha x (by simp [hx]))]

theorem repoMatch_nil : repoMatch [] = none := rfl

theorem repoMatch_cons (c : Char) (rest : List Char) :
    repoMatch (c :: rest) =
      if repoChar c then
        (if isTailOk rest then some [c] else (repoMatch rest).map (c :: ·))
      else none := rfl

theorem repoMatch_isSome {r : List Char} (tail : List Char) (hr : r ≠ [])
    (hrc : ∀ c ∈ r, repoChar c = true) (ht : isTailOk tail = true) :
    (repoMatch (r ++ tail)).isSome = true := by
  induction r with
  | nil => exact absurd rfl hr
  | cons c r' ih =>
    have hc : repoChar c = true := hrc c (by simp)
    by_cases hok : isTailOk (r' ++ tail) = true
    · simp [repoMatch, hc, hok]
    · cases r' with
      | nil => exact absurd (by simpa using ht) hok
      | cons d r'' =>
        have hrec := ih (by simp) (fun x hx => hrc x (by simp [hx]))
        rw [List.cons_append, repoMatch_cons, if_pos hc, if_neg hok]
        cases hm : repoMatch ((d :: r'') ++ tail) with
        | none => rw [hm] at hrec; simp at hrec
        | some x => rfl

theorem repoMatch_eq_some {s r : List Char} (h : repoMatch s = some r) :
    ∃ tail, s = r ++ tail ∧ isTailOk tail = true ∧ r ≠ [] ∧ ∀ c ∈ r, repoChar c = true := by
  induction s generalizing r with
  | nil => simp [repoMatch] at h
  | cons c rest ih =>
    rw [repoMatch_cons] at h
    by_cases hc : repoChar c = true
    · rw [if_pos hc] at h
      by_cases hok : isTailOk rest = true
      · rw [if_pos hok] at h
        obtain rfl : [c] = r := by simpa using h
        exact ⟨rest, by simp, hok, by simp, by simpa using hc⟩
      · rw [if_neg hok] at h
        obtain ⟨r', hr', rfl⟩ := Option.map_eq_some'.mp h
        obtain ⟨tail, htl, hok', hne, hchars⟩ := ih hr'
        refine ⟨tail, by simp [htl], hok', by simp, ?_⟩
        intro x hx
        rcases List.mem_cons.mp hx with hx | hx
        · exact hx ▸ hc
        · exact hchars x hx
    · rw [if_neg hc] at h
      exact absurd h (by simp)

theorem drop_length_takeWhile (p : Char → Bool) (l : List Char) :
    l.drop (l.takeWhile p).length = l.dropWhile p := by
  induction l with
  | nil => rfl
  | cons a l ih =>
    by_cases h : p a
    · simp [List.takeWhile_cons, List.dropWhile_cons, h, ih]
    · simp [List.takeWhile_cons, List.dropWhile_cons, h]

theorem isTailOk_cases {tail : List Char} (h : isTailOk tail = true) :
    tail = [] ∨ tail = ['/'] ∨ tail = ['.', 'g', 'i', 't'] ∨ tail = ['.', 'g', 'i', 't', '/'] := by
  simp [isTailOk] at h
  tauto

/-- Every string accepted by the parser decomposes according to the spec
shape `scheme://[www.]github.com/owner/repo[.git][/]`. -/
theorem shape_of_parse {url u r : List Char}
    (h : parse_github_url_core url = some (u, r)) : SpecShape url := by
  unfold parse_github_url_core at h
  have hscheme : ∃ scheme s1,
      (scheme = "http".toList ∨ scheme = "https".toList) ∧
      url = scheme ++ "://".toList ++ s1 ∧
      ((dropLit "https://".toList url).orElse
        (fun _ => dropLit "http://".toList url)) = some s1 := by
    cases h1 : dropLit "https://".toList url with
    | some s1 =>
      refine ⟨"https".toList, s1, Or.inr rfl, ?_, rfl⟩
      have := dropLit_eq_some h1
      rw [this]
      rfl
    | none =>
      cases h2 : dropLit "http://".toList url with
      | some s1 =>
        refine ⟨"http".toList, s1, Or.inl rfl, ?_, rfl⟩
        have := dropLit_eq_some h2
        rw [this]
        rfl
      | none =>
        rw [h1, h2] at h
        exact absurd h (by simp [Option.orElse])
  obtain ⟨scheme, s1, hsch, hurl, he⟩ := hscheme
  rw [he] at h
  simp only [Option.some_orElse] at h
  have hwww : ∃ www s2,
      (www = [] ∨ www = "www.".toList) ∧ s1 = www ++ s2 ∧
      (match dropLit "www.".toList s1 with
        | some x => x
        | none => s1) = s2 := by
    cases h2 : dropLit "www.".toList s1 with
    | some x => exact ⟨"www.".toList, x, Or.inr rfl, dropLit_eq_some h2, rfl⟩
    | none => exact ⟨[], s1, Or.inl rfl, rfl, rfl⟩
  obtain ⟨www, s2, hw, hs1, he2⟩ := hwww
  rw [he2] at h
  split at h
  next h3 => exact absurd h (by simp)
  next s3 h3 =>
  simp only [parse_owner_repo] at h
  have hs2 : s2 = "github.com/".toList ++ s3 := dropLit_eq_some h3
  split at h
  next h4 => exact absurd h (by simp)
  next h4 =>
  rw [Bool.not_eq_true] at h4
  have hs3split : s3 = s3.takeWhile ownerChar ++ s3.drop (s3.takeWhile ownerChar).length := by
    conv_lhs => rw [← List.takeWhile_append_dropWhile (p := ownerChar) (l := s3)]
    rw [drop_length_takeWhile]
  split at h
  next s4 heq =>
    obtain ⟨rr, hrm, hpair⟩ := Option.map_eq_some'.mp h
    obtain ⟨tail, hs4, htail, hrne, hrchars⟩ := repoMatch_eq_some hrm
    have hshape_tail : ∃ git slash : List Char,
        (git = [] ∨ git = ".git".toList) ∧ (slash = [] ∨ slash = "/".toList) ∧
        tail = git ++ slash := by
      rcases isTailOk_cases htail with h | h | h | h
      · exact ⟨[], [], Or.inl rfl, Or.inl rfl, by simp [h]⟩
      · exact ⟨[], ['/'], Or.inl rfl, Or.inr rfl, by rw [h]; rfl⟩
      · exact ⟨".git".toList, [], Or.inr rfl, Or.inl rfl, by rw [h]; rfl⟩
      · exact ⟨".git".toList, ['/'], Or.inr rfl, Or.inr rfl, by rw [h]; rfl⟩
    obtain ⟨git, slash, hg, hsl, htl⟩ := hshape_tail
    refine ⟨scheme, www, s3.takeWhile ownerChar, rr, git, slash, hsch, hw, ?_, ?_,
      hrne, hrchars, hg, hsl, ?_⟩
    · intro hne
      rw [hne] at h4
      simp at h4
    · intro c hc
      exact List.mem_takeWhile_imp hc
    · have hs3' : s3 = s3.takeWhile ownerChar ++ '/' :: (rr ++ (git ++ slash)) := by
        conv_lhs => rw [hs3split, heq]
        rw [hs4, htl]
      conv_lhs => rw [hurl, hs1, hs2, hs3']
      rw [show ("/".toList : List Char) = ['/'] from rfl]
      simp only [List.append_assoc, List.singleton_append, List.cons_append, List.nil_append]
  next hne =>
    exact absurd h (by simp)

theorem parse_owner_repo_eval (owner R : List Char) (hoe : owner.isEmpty = false)
    (howner : (owner ++ '/' :: R).takeWhile ownerChar = owner) :
    parse_owner_repo (owner ++ '/' :: R) = (repoMatch R).map (fun r => (owner, r)) := by
  simp only [parse_owner_repo, howner, hoe, Bool.false_eq_true, if_false, List.drop_left]

theorem parse_core_https_www (S3 : List Char) :
    parse_github_url_core
      ("https://".toList ++ ("www.".toList ++ ("github.com/".toList ++ S3))) =
    parse_owner_repo S3 := rfl

theorem parse_core_https_nowww (S3 : List Char) :
    parse_github_url_core ("https://".toList ++ ("github.com/".toList ++ S3)) =
    parse_owner_repo S3 := rfl

theorem parse_core_http_www (S3 : List Char) :
    parse_github_url_core
      ("http://".toList ++ ("www.".toList ++ ("github.com/".toList ++ S3))) =
    parse_owner_repo S3 := rfl

theorem parse_core_http_nowww (S3 : List Char) :
    parse_github_url_core ("http://".toList ++ ("github.com/".toList ++ S3)) =
    parse_owner_repo S3 := rfl

/-- Every string of the spec shape is accepted by the anchored core parser. -/
theorem parse_isSome_of_shape {url : List Char} (h : SpecShape url) :
    (parse_github_url_core url).isSome = true := by
  obtain ⟨scheme, www, owner, repo, git, slash, hs, hw, ho, hoc, hr, hrc, hg, hsl, hurl⟩ := h
  have htail : isTailOk (git ++ slash) = true := by
    rcases hg with hg | hg <;> rcases hsl with hsl | hsl <;> subst hg hsl <;> decide
  have hrepo : (repoMatch (repo ++ (git ++ slash))).isSome = true :=
    repoMatch_isSome (git ++ slash) hr hrc htail
  have howner : (owner ++ '/' :: (repo ++ (git ++ slash))).takeWhile ownerChar = owner :=
    takeWhile_append_sep hoc (by decide)
  have hoe : owner.isEmpty = false := by
    cases owner with
    | nil => exact absurd rfl ho
    | cons c l => rfl
  have hro := parse_owner_repo_eval owner (repo ++ (git ++ slash)) hoe howner
  subst hurl
  rcases hs with hs | hs <;> rcases hw with hw | hw <;> subst hs <;> subst hw <;>
    simp only [List.append_assoc]
  · show (parse_github_url_core
      ("http://".toList ++ ("github.com/".toList ++
        (owner ++ '/' :: (repo ++ (git ++ slash)))))).isSome = true
    rw [parse_core_http_nowww, hro]
    simpa using hrepo
  · show (parse_github_url_core
      ("http://".toList ++ ("www.".toList ++ ("github.com/".toList ++
        (owner ++ '/' :: (repo ++ (git ++ slash))))))).isSome = true
    rw [parse_core_http_www, hro]
    simpa using hrepo
  · show (parse_github_url_core
      ("https://".toList ++ ("github.com/".toList ++
        (owner ++ '/' :: (repo ++ (git ++ slash)))))).isSome = true
    rw [parse_core_https_nowww, hro]
    simpa using hrepo
  · show (parse_github_url_core
      ("https://".toList ++ ("www.".toList ++ ("github.com/".toList ++
        (owner ++ '/' :: (repo ++ (git ++ slash))))))).isSome = true
    rw [parse_core_https_www, hro]
    simpa using hrepo

theorem dropLit_self_append (a s : List Char) : dropLit a (a ++ s) = some s := by
  induction a with
  | nil => rfl
  | cons c a ih => simp [dropLit, ih]

theorem dropLit_cons_ne {a c : Char} (l s : List Char) (h : a ≠ c) :
    dropLit (a :: l) (c :: s) = none := by
  simp [dropLit, h]

theorem dropLit_none_of_short {l s : List Char} (h : s.length < l.length) :
    dropLit l s = none := by
  induction l generalizing s with
  | nil => simp at h
  | cons c l ih =>
    cases s with
    | nil => rfl
    | cons d s' =>
      simp only [dropLit]
      split
      · exact ih (by simpa using h)
      · rfl

theorem firstIdx_nil (sub : List Char) :
    firstIdx [] sub = if (dropLit sub []).isSome then some 0 else none := rfl

theorem firstIdx_cons (c : Char) (s sub : List Char) :
    firstIdx (c :: s) sub =
      if (dropLit sub (c :: s)).isSome then some 0
      else (firstIdx s sub).map (· + 1) := rfl

theorem firstIdx_of_prefix {s sub r : List Char} (h : dropLit sub s = some r) :
    firstIdx s sub = some 0 := by
  cases s with
  | nil => rw [firstIdx_nil, h]; rfl
  | cons c s' => rw [firstIdx_cons, h]; rfl

theorem firstIdx_append_fence (u v : List Char) (hu : ∀ c ∈ u, c ≠ btick) :
    firstIdx (u ++ (fence3 ++ v)) fence3 = some u.length := by
  induction u with
  | nil =>
    rw [List.nil_append]
    exact firstIdx_of_prefix (dropLit_self_append fence3 v)
  | cons c u ih =>
    rw [List.cons_append, firstIdx_cons,
      show dropLit fence3 (c :: (u ++ (fence3 ++ v))) = none from
        dropLit_cons_ne _ _ (fun he => hu c (by simp) he.symm)]
    rw [ih (fun x hx => hu x (by simp [hx]))]
    rfl

theorem firstIdx_none_of_no_btick {s : List Char} (l : List Char)
    (h : ∀ c ∈ s, c ≠ btick) : firstIdx s (btick :: l) = none := by
  induction s with
  | nil => rfl
  | cons c s ih =>
    rw [firstIdx_cons, dropLit_cons_ne _ _ (fun he => h c (by simp) he.symm)]
    rw [ih (fun x hx => h x (by simp [hx]))]
    rfl

theorem firstIdx_fence3_none {s : List Char} (h : ∀ c ∈ s, c ≠ btick) :
    firstIdx s fence3 = none :=
  firstIdx_none_of_no_btick [btick, btick] h

theorem firstIdx_fenceJson_none {s : List Char} (h : ∀ c ∈ s, c ≠ btick) :
    firstIdx s fenceJson = none :=
  firstIdx_none_of_no_btick [btick, btick, 'j', 's', 'o', 'n'] h

theorem firstIdx_eq_none_iff (s sub : List Char) :
    firstIdx s sub = none ↔ ∀ i, dropLit sub (s.drop i) = none := by
  induction s with
  | nil =>
    rw [firstIdx_nil]
    constructor
    · intro h i
      simp only [List.drop_nil]
      cases hd : dropLit sub ([] : List Char) with
      | none => rfl
      | some r => rw [hd] at h; simp at h
    · intro h
      have h0 := h 0
      simp only [List.drop_nil] at h0
      rw [h0]
      rfl
  | cons c s ih =>
    rw [firstIdx_cons]
    constructor
    · intro h i
      cases hd : dropLit sub (c :: s) with
      | some r => rw [hd] at h; simp at h
      | none =>
        rw [hd] at h
        simp only [Option.isSome_none, Bool.false_eq_true, if_false] at h
        cases i with
        | zero => exact hd
        | succ j =>
          have := (ih.mp (by simpa using h)) j
          simpa using this
    · intro h
      have h0 := h 0
      simp only [List.drop_zero] at h0
      rw [h0]
      simp only [Option.isSome_none, Bool.false_eq_true, if_false]
      rw [Option.map_eq_none']
      exact ih.mpr (fun i => by simpa using h (i + 1))

theorem mem_stripWS {c : Char} {s : List Char} (h : c ∈ stripWS s) : c ∈ s := by
  unfold stripWS at h
  rw [List.mem_reverse] at h
  have h1 := (List.dropWhile_sublist (p := isWS)).mem h
  rw [List.mem_reverse] at h1
  exact (List.dropWhile_sublist (p := isWS)).mem h1

theorem stripWS_eq_self {s : List Char} {c d : Char} (h1 : s.head? = some c)
    (hc : isWS c = false) (h2 : s.getLast? = some d) (hd : isWS d = false) :
    stripWS s = s := by
  have e1 : s.dropWhile isWS = s := by
    cases s with
    | nil => simp at h1
    | cons a s' =>
      obtain rfl : a = c := by simpa using h1
      simp [List.dropWhile_cons, hc]
  have e2 : s.reverse.dropWhile isWS = s.reverse := by
    cases hr : s.reverse with
    | nil => rfl
    | cons a s' =>
      have hh : s.reverse.head? = some d := by rw [List.head?_reverse]; exact h2
      rw [hr] at hh
      obtain rfl : a = d := by simpa using hh
      simp [List.dropWhile_cons, hd]
  rw [stripWS, e1, e2, List.reverse_reverse]

theorem stripWS_cons_ws {a : Char} (s : List Char) (h : isWS a = true) :
    stripWS (a :: s) = stripWS s := by
  rw [stripWS, stripWS, List.dropWhile_cons, h]
  simp

theorem stripWS_append_ws {a : Char} (s : List Char) (h : isWS a = true) :
    stripWS (s ++ [a]) = stripWS s := by
  rw [stripWS, stripWS, List.dropWhile_append]
  cases h0 : s.dropWhile isWS with
  | nil =>
    simp [List.dropWhile_cons, h]
  | cons b l =>
    simp [List.reverse_append, List.dropWhile_cons, h]

theorem stripWS_newline_wrap (t : List Char) :
    stripWS ('\n' :: (t ++ ['\n'])) = stripWS t := by
  rw [stripWS_cons_ws _ (by decide), stripWS_append_ws _ (by decide)]

theorem dropLit_fenceJson_tail_none {t : List Char} (ht : ∀ c ∈ t, c ≠ btick) (j : Nat) :
    dropLit fenceJson ((t ++ '\n' :: fence3).drop j) = none := by
  rcases lt_trichotomy j t.length with hj | hj | hj
  · rw [List.drop_append_eq_append_drop, Nat.sub_eq_zero_of_le (le_of_lt hj),
      List.drop_zero, List.drop_eq_getElem_cons hj, List.cons_append]
    exact dropLit_cons_ne _ _ (fun he => ht _ (List.getElem_mem hj) he.symm)
  · subst hj
    rw [List.drop_left]
    exact dropLit_cons_ne _ _ (by decide)
  · rw [List.drop_append_eq_append_drop, List.drop_eq_nil_of_le (le_of_lt hj),
      List.nil_append]
    apply dropLit_none_of_short
    rw [List.length_drop, show ('\n' :: fence3).length = 4 from rfl,
      show fenceJson.length = 7 from rfl]
    omega

theorem firstIdx_wrapPlain_fenceJson {t : List Char} (ht : ∀ c ∈ t, c ≠ btick) :
    firstIdx (wrapPlain t) fenceJson = none := by
  rw [firstIdx_eq_none_iff]
  intro i
  match i with
  | 0 => rfl
  | 1 => rfl
  | 2 => rfl
  | 3 => rfl
  | (j + 4) =>
    rw [show wrapPlain t = (fence3 ++ ['\n']) ++ (t ++ '\n' :: fence3) from by simp [wrapPlain],
      show j + 4 = (fence3 ++ ['\n']).length + j from by simp [fence3]; omega,
      List.drop_append]
    exact dropLit_fenceJson_tail_none ht j

theorem firstIdx_close_fence {t : List Char} (ht : ∀ c ∈ t, c ≠ btick) :
    firstIdx ('\n' :: (t ++ '\n' :: fence3)) fence3 = some (t.length + 2) := by
  have hmem : ∀ c ∈ '\n' :: (t ++ ['\n']), c ≠ btick := by
    intro c hc
    rcases List.mem_cons.mp hc with rfl | hc
    · decide
    · rcases List.mem_append.mp hc with hc | hc
      · exact ht c hc
      · obtain rfl : c = '\n' := by simpa using hc
        decide
  have := firstIdx_append_fence ('\n' :: (t ++ ['\n'])) [] hmem
  rw [show ('\n' :: (t ++ ['\n'])) ++ (fence3 ++ []) = '\n' :: (t ++ '\n' :: fence3) from
    by simp] at this
  rw [this]
  simp

theorem stripWS_wrapJson (t : List Char) : stripWS (wrapJson t) = wrapJson t := by
  have hlast : (wrapJson t).getLast? = some btick := by
    rw [show wrapJson t = (fenceJson ++ '\n' :: t) ++ ('\n' :: fence3) from by simp [wrapJson],
      List.getLast?_append]
    rfl
  exact stripWS_eq_self rfl (by decide) hlast (by decide)

theorem stripWS_wrapPlain (t : List Char) : stripWS (wrapPlain t) = wrapPlain t := by
  have hlast : (wrapPlain t).getLast? = some btick := by
    rw [show wrapPlain t = (fence3 ++ '\n' :: t) ++ ('\n' :: fence3) from by simp [wrapPlain],
      List.getLast?_append]
    rfl
  exact stripWS_eq_self rfl (by decide) hlast (by decide)

theorem pyIdx_natCast {n m : Nat} (h : m ≤ n) : pyIdx n ((m : Nat) : Int) = m := by
  simp only [pyIdx]
  rw [if_neg (show ¬(((m : Nat) : Int) < 0) from by omega),
    if_neg (show ¬(((m : Nat) : Int) < 0) from by omega), Int.toNat_natCast]
  omega

theorem stripFence_wrapJson {t : List Char} (ht : ∀ c ∈ t, c ≠ btick) :
    stripFence (wrapJson t) = stripWS t := by
  have hlen : (wrapJson t).length = t.length + 12 := by
    simp [wrapJson, fenceJson, fence3]
  have hfj : pyFind (wrapJson t) fenceJson = 0 := by
    rw [pyFind, firstIdx_of_prefix
      (show dropLit fenceJson (wrapJson t) = some ('\n' :: (t ++ '\n' :: fence3)) from
        dropLit_self_append fenceJson _)]
    rfl
  have hidx7 : pyIdx (wrapJson t).length 7 = 7 := by
    rw [hlen]
    simp only [pyIdx]
    rw [if_neg (show ¬((7 : Int) < 0) from by norm_num),
      if_neg (show ¬((7 : Int) < 0) from by norm_num),
      show (7 : Int).toNat = 7 from rfl]
    omega
  have hfrom : pyFindFrom (wrapJson t) fence3 7 = ((t.length + 9 : Nat) : Int) := by
    simp only [pyFindFrom, hidx7]
    rw [show (wrapJson t).drop 7 = '\n' :: (t ++ '\n' :: fence3) from rfl,
      firstIdx_close_fence ht]
  have hidx9 : pyIdx (wrapJson t).length ((t.length + 9 : Nat) : Int) = t.length + 9 := by
    rw [hlen]
    exact pyIdx_natCast (by omega)
  have hslice : pySlice (wrapJson t) 7 ((t.length + 9 : Nat) : Int) = '\n' :: (t ++ ['\n']) := by
    simp only [pySlice, hidx7, hidx9]
    rw [show wrapJson t = (fenceJson ++ '\n' :: (t ++ ['\n'])) ++ fence3 from by simp [wrapJson],
      List.take_left' (show (fenceJson ++ '\n' :: (t ++ ['\n'])).length = t.length + 9 from by
        simp [fenceJson]),
      List.drop_left' (show fenceJson.length = 7 from rfl)]
  simp only [stripFence, stripWS_wrapJson, hfj]
  norm_num
  rw [hfrom, hslice, stripWS_newline_wrap]

theorem stripFence_wrapPlain {t : List Char} (ht : ∀ c ∈ t, c ≠ btick) :
    stripFence (wrapPlain t) = stripWS t := by
  have hlen : (wrapPlain t).length = t.length + 8 := by
    simp [wrapPlain, fence3]
  have hfjn : pyFind (wrapPlain t) fenceJson = -1 := by
    rw [pyFind, firstIdx_wrapPlain_fenceJson ht]
  have hf3 : pyFind (wrapPlain t) fence3 = 0 := by
    rw [pyFind, firstIdx_of_prefix
      (show dropLit fence3 (wrapPlain t) = some ('\n' :: (t ++ '\n' :: fence3)) from
        dropLit_self_append fence3 _)]
    rfl
  have hidx3 : pyIdx (wrapPlain t).length 3 = 3 := by
    rw [hlen]
    simp only [pyIdx]
    rw [if_neg (show ¬((3 : Int) < 0) from by norm_num),
      if_neg (show ¬((3 : Int) < 0) from by norm_num),
      show (3 : Int).toNat = 3 from rfl]
    omega
  have hfrom : pyFindFrom (wrapPlain t) fence3 3 = ((t.length + 5 : Nat) : Int) := by
    simp only [pyFindFrom, hidx3]
    rw [show (wrapPlain t).drop 3 = '\n' :: (t ++ '\n' :: fence3) from rfl,
      firstIdx_close_fence ht]
  have hidx5 : pyIdx (wrapPlain t).length ((t.length + 5 : Nat) : Int) = t.length + 5 := by
    rw [hlen]
    exact pyIdx_natCast (by omega)
  have hslice : pySlice (wrapPlain t) 3 ((t.length + 5 : Nat) : Int) = '\n' :: (t ++ ['\n']) := by
    simp only [pySlice, hidx3, hidx5]
    rw [show wrapPlain t = (fence3 ++ '\n' :: (t ++ ['\n'])) ++ fence3 from by simp [wrapPlain],
      List.take_left' (show (fence3 ++ '\n' :: (t ++ ['\n'])).length = t.length + 5 from by
        simp [fence3]),
      List.drop_left' (show (fence3 : List Char).length = 3 from rfl)]
  simp only [stripFence, stripWS_wrapPlain, hfjn, hf3]
  norm_num
  rw [hfrom, hslice, stripWS_newline_wrap]

theorem stripFence_no_fence {t : List Char} (ht : ∀ c ∈ t, c ≠ btick) :
    stripFence t = stripWS t := by
  have hmem : ∀ c ∈ stripWS t, c ≠ btick := fun c hc => ht c (mem_stripWS hc)
  have h1 : pyFind (stripWS t) fenceJson = -1 := by
    rw [pyFind, firstIdx_fenceJson_none hmem]
  have h2 : pyFind (stripWS t) fence3 = -1 := by
    rw [pyFind, firstIdx_fence3_none hmem]
  simp only [stripFence, h1, h2]
  norm_num

/-! ## C4: total projects split into winners plus participants -/

/-- C4: for every database state, `get_database_stats` reports a total project
count equal to the number of winner records (place case-insensitively
containing "winner") plus the number of participant records (place not
containing "winner"); the `/api/stats` endpoint's `total_participants` equals
that participant count. -/
theorem stats_total_is_winners_plus_participants (db : DB) :
    (get_database_stats db).total_projects
      = (get_database_stats db).total_winners
        + (db.rows.filter (fun h => !is_winner h)).length
    ∧ (get_stats_endpoint db).total_participants
      = (db.rows.filter (fun h => !is_winner h)).length := by
  have h := length_filter_split is_winner db.rows
  constructor
  · simp only [get_database_stats]
    omega
  · simp only [get_stats_endpoint, get_database_stats]
    omega

/-! ## C6: delete semantics and its HTTP surface -/

/-- C6: when no record has the requested id, `delete_by_id` returns
`success = false`, `project_name = None` and the not-found message and leaves
the database unchanged; when a record exists it returns `success = true` with
that record's name and a subsequent read for that id finds nothing; the API
surfaces every unsuccessful result as HTTP 404. -/
theorem delete_by_id_spec :
    (∀ (db : DB) (pid : Nat),
        db.rows.find? (fun h => h.id == pid) = none →
        delete_by_id db pid =
          ({ success := false,
             message := "Project with ID " ++ toString pid ++ " not found",
             project_name := none }, db)) ∧
    (∀ (db : DB) (pid : Nat) (p : Hack),
        db.rows.find? (fun h => h.id == pid) = some p →
        (delete_by_id db pid).1.success = true ∧
        (delete_by_id db pid).1.project_name = some p.name ∧
        (delete_by_id db pid).2.rows.find? (fun h => h.id == pid) = none) ∧
    (∀ (db : DB) (pid : Nat),
        (delete_by_id db pid).1.success = false →
        delete_project_endpoint db pid =
          (.error (404, (delete_by_id db pid).1.message), db)) := by
  refine ⟨?_, ?_, ?_⟩
  · intro db pid h
    simp [delete_by_id, h]
  · intro db pid p h
    refine ⟨by simp [delete_by_id, h], by simp [delete_by_id, h], ?_⟩
    simp only [delete_by_id, h]
    rw [List.find?_eq_none]
    intro x hx
    have hmem := (List.mem_filter.mp hx).2
    simp only [Bool.not_eq_true'] at hmem
    simp [hmem]
  · intro db pid h
    cases hf : db.rows.find? (fun h => h.id == pid) with
    | none => simp [delete_project_endpoint, delete_by_id, hf]
    | some p => simp [delete_by_id, hf] at h

/-- Witness for C6 at a concrete one-row store: deleting id 7 succeeds and a
second lookup finds nothing; deleting the absent id 9 fails, changes nothing,
and surfaces as 404. -/
theorem delete_by_id_spec_witness :
    ((delete_by_id ⟨[rowA], 2⟩ 1).1.success = true ∧
     (delete_by_id ⟨[rowA], 2⟩ 1).1.project_name = some "Widget" ∧
     (delete_by_id ⟨[rowA], 2⟩ 1).2.rows.find? (fun h => h.id == 1) = none) ∧
    (delete_by_id ⟨[rowA], 2⟩ 9 =
      ({ success := false, message := "Project with ID 9 not found",
         project_name := none }, ⟨[rowA], 2⟩)) ∧
    (delete_project_endpoint ⟨[rowA], 2⟩ 9 =
      (.error (404, "Project with ID 9 not found"), ⟨[rowA], 2⟩)) := by
  refine ⟨?_, ?_, ?_⟩
  · exact delete_by_id_spec.2.1 ⟨[rowA], 2⟩ 1 rowA (by decide)
  · exact delete_by_id_spec.1 ⟨[rowA], 2⟩ 9 (by decide)
  · exact delete_by_id_spec.2.2 ⟨[rowA], 2⟩ 9 (by decide)

/-! ## C10: the insert endpoint reports every `False` as a duplicate -/

/-- C10: whenever `auto_insert_hack` returns `False` without raising — be the
cause a failed URL validation, a duplicate link, or a store-level insert
failure — `POST /api/insert` answers `success = false` with the fixed message
"Duplicate project - already exists in database", so the response cannot
distinguish the causes. -/
theorem insert_endpoint_duplicate_message :
    (∀ (env : Env) (db db' : DB) (u s : String),
        auto_insert_hack env db u s = (.ok false, db') →
        insert_project_endpoint env db u s =
          (.ok { success := false, message := "Duplicate project - already exists in database",
                 project_name := none }, db')) ∧
    (∀ (env : Env) (db : DB) (u s : String),
        (validate_github_url env.fetch u.toList).1 = false →
        insert_project_endpoint env db u s =
          (.ok { success := false, message := "Duplicate project - already exists in database",
                 project_name := none }, db)) ∧
    (∀ (env : Env) (db : DB) (u s : String),
        (validate_github_url env.fetch u.toList).1 = true →
        (check_duplicate_project db u).1 = true →
        insert_project_endpoint env db u s =
          (.ok { success := false, message := "Duplicate project - already exists in database",
                 project_name := none }, db)) ∧
    (∀ (env : Env) (db : DB) (u s : String) (t : List Char) (d : HackData),
        (validate_github_url env.fetch u.toList).1 = true →
        (check_duplicate_project db u).1 = false →
        env.gemini u s = .text t →
        env.jsonLoads (stripFence t) = .ok d →
        env.storeOk u = false →
        insert_project_endpoint env db u s =
          (.ok { success := false, message := "Duplicate project - already exists in database",
                 project_name := none }, db)) := by
  refine ⟨?_, ?_, ?_, ?_⟩
  · intro env db db' u s h
    simp [insert_project_endpoint, h]
  · intro env db u s h
    simp only [String.toList] at h
    simp [insert_project_endpoint, auto_insert_hack, h]
  · intro env db u s hv hd
    simp only [String.toList] at hv
    simp [insert_project_endpoint, auto_insert_hack, hv, hd]
  · intro env db u s t d hv hd hg hj hs
    simp only [String.toList] at hv
    simp [insert_project_endpoint, auto_insert_hack, hv, hd, hg, hj, hs, insert_project]

/-! ## Dissection of a successful `auto_insert_hack` run -/

theorem auto_insert_hack_ok_true (env : Env) (db db1 : DB) (url status : String)
    (h : auto_insert_hack env db url status = (.ok true, db1)) :
    (validate_github_url env.fetch url.toList).1 = true ∧
    db.rows.find? (fun h => h.githubLink == url) = none ∧
    ∃ d : HackData,
      db1 = { rows := db.rows ++ [{ id := db.nextId, name := d.name, framework := d.framework,
                                    githubLink := url, place := status, topic := d.topic,
                                    descriptions := d.descriptions, ai_score := d.ai_score,
                                    ai_reasoning := d.ai_reasoning }],
              nextId := db.nextId + 1 } := by
  unfold auto_insert_hack at h
  split at h
  · simp at h
  next hv =>
  split at h
  · simp at h
  next hdup =>
  have hval : (validate_github_url env.fetch url.toList).1 = true := by
    simpa using hv
  obtain hf : db.rows.find? (fun h => h.githubLink == url) = none := by
    cases hfind : db.rows.find? (fun h => h.githubLink == url) with
    | some p => exact absurd (by simp [check_duplicate_project, hfind]) hdup
    | none => rfl
  split at h
  next e hg => simp at h
  next t hg =>
  split at h
  next e hj => simp at h
  next d hj =>
  simp only [insert_project] at h
  cases hs : env.storeOk url with
  | false => rw [hs] at h; simp at h
  | true =>
  rw [hs] at h
  simp only [if_true] at h
  rw [Prod.mk.injEq] at h
  exact ⟨hval, hf, d, h.2.symm⟩

/-- Witness for C10: a duplicate, a validation failure and a store failure
all produce the identical duplicate response. -/
theorem insert_endpoint_duplicate_message_witness :
    insert_project_endpoint envA dbA1 url0 "winner" =
      (.ok { success := false, message := "Duplicate project - already exists in database",
             project_name := none }, dbA1) ∧
    insert_project_endpoint envBad dbE url0 "winner" =
      (.ok { success := false, message := "Duplicate project - already exists in database",
             project_name := none }, dbE) ∧
    insert_project_endpoint envNoStore dbE url0 "winner" =
      (.ok { success := false, message := "Duplicate project - already exists in database",
             project_name := none }, dbE) := by
  refine ⟨?_, ?_, ?_⟩
  · exact insert_endpoint_duplicate_message.2.2.1 envA dbA1 url0 "winner"
      (by decide) (by decide)
  · exact insert_endpoint_duplicate_message.2.1 envBad dbE url0 "winner" (by decide)
  · exact insert_endpoint_duplicate_message.2.2.2 envNoStore dbE url0 "winner"
      "ok".toList ⟨"Widget", "Go", "AI", "Desc", 7, "Why"⟩
      (by decide) (by decide) rfl rfl rfl

/-! ## C1: duplicate rejection and uniqueness of `githubLink` -/

/-- C1: if a call to `auto_insert_hack` inserted a record for a URL, a second
call with the same URL finds it at the duplicate check and returns `False`
without touching the store, whatever the status argument; and every
`auto_insert_hack` execution preserves uniqueness of `githubLink` among the
stored records. -/
theorem auto_insert_hack_duplicate_unique :
    (∀ (env : Env) (db db1 : DB) (url s1 s2 : String),
        auto_insert_hack env db url s1 = (.ok true, db1) →
        (check_duplicate_project db1 url).1 = true ∧
        auto_insert_hack env db1 url s2 = (.ok false, db1)) ∧
    (∀ (env : Env) (db db' : DB) (url s : String) (res : Except String Bool),
        auto_insert_hack env db url s = (res, db') →
        (db.rows.map Hack.githubLink).Nodup →
        (db'.rows.map Hack.githubLink).Nodup) := by
  constructor
  · intro env db db1 url s1 s2 h
    obtain ⟨hval, hf, d, hdb1⟩ := auto_insert_hack_ok_true env db db1 url s1 h
    have hcheck : (check_duplicate_project db1 url).1 = true := by
      subst hdb1
      simp [check_duplicate_project, List.find?_append, hf]
    refine ⟨hcheck, ?_⟩
    unfold auto_insert_hack
    rw [hval, hcheck]
    simp
  · intro env db db' url s res h hnd
    unfold auto_insert_hack at h
    split at h
    · injection h with h1 h2; exact h2 ▸ hnd
    next hv =>
    split at h
    · injection h with h1 h2; exact h2 ▸ hnd
    next hdup =>
    obtain hf : db.rows.find? (fun h => h.githubLink == url) = none := by
      cases hfind : db.rows.find? (fun h => h.githubLink == url) with
      | some p => exact absurd (by simp [check_duplicate_project, hfind]) hdup
      | none => rfl
    split at h
    next e hg => injection h with h1 h2; exact h2 ▸ hnd
    next t hg =>
    split at h
    next e hj => injection h with h1 h2; exact h2 ▸ hnd
    next d hj =>
    simp only [insert_project] at h
    cases hs : env.storeOk url with
    | false =>
      rw [hs] at h
      simp only [if_false, Bool.false_eq_true] at h
      injection h with h1 h2; exact h2 ▸ hnd
    | true =>
    rw [hs] at h
    simp only [if_true] at h
    injection h with h1 h2
    rw [← h2]
    simp only [List.map_append, List.map_cons, List.map_nil]
    rw [(List.perm_append_singleton _ _).nodup_iff, List.nodup_cons]
    refine ⟨?_, hnd⟩
    intro hmem
    obtain ⟨x, hx, hxe⟩ := List.mem_map.mp hmem
    have := List.find?_eq_none.mp hf x hx
    simp [hxe] at this

/-- Witness for C1: after `auto_insert_hack` stores `url0` in the empty
store, a second call with the other status label returns `False` and leaves
the one-row store unchanged, whose links are unique. -/
theorem auto_insert_hack_duplicate_unique_witness :
    auto_insert_hack envA dbA1 url0 "participant" = (.ok false, dbA1) ∧
    (dbA1.rows.map Hack.githubLink).Nodup := by
  constructor
  · exact (auto_insert_hack_duplicate_unique.1 envA dbE dbA1 url0 "winner" "participant"
      rfl).2
  · exact auto_insert_hack_duplicate_unique.2 envA dbE dbA1 url0 "winner" (.ok true)
      rfl (by decide)

/-! ## C5: insert followed by duplicate check -/

/-- C5: whenever `auto_insert_hack` returns `True` (in particular for every
valid well-formed URL of an existing repository, the only URLs for which it
can), the store gained exactly one record carrying that URL, and an
immediately following `check_duplicate_project` on the same URL reports
`exists = true` with that record's id and name. -/
theorem insert_then_check_duplicate (env : Env) (db db1 : DB) (url status : String)
    (h : auto_insert_hack env db url status = (.ok true, db1)) :
    ∃ r : Hack, db1.rows = db.rows ++ [r] ∧ r.githubLink = url ∧
      check_duplicate_project db1 url = (true, some r.id, some r.name) := by
  obtain ⟨hval, hf, d, hdb1⟩ := auto_insert_hack_ok_true env db db1 url status h
  subst hdb1
  refine ⟨_, rfl, rfl, ?_⟩
  simp [check_duplicate_project, List.find?_append, hf]

/-- Witness for C5 at the concrete successful insert of `url0`. -/
theorem insert_then_check_duplicate_witness :
    ∃ r : Hack, dbA1.rows = dbE.rows ++ [r] ∧ r.githubLink = url0 ∧
      check_duplicate_project dbA1 url0 = (true, some r.id, some r.name) :=
  insert_then_check_duplicate envA dbE dbA1 url0 "winner" rfl

/-! ## C2: batch insert -/

/-- C2: the batch loop skips blank lines and `#` comments, uses the default
status for lines without a comma and processes each remaining line
independently, accumulating a success count and a `(url, error)` failure
list; on the concrete file with one malformed line (a URL without a status)
and two valid lines it yields `success_count = 2` and exactly one failure
entry. -/
theorem batch_insert_spec :
    (∀ (env : Env) (ds : Option (List Char)) (st : BatchState) (line : List Char),
        (stripWS line = [] ∨ ∃ r, stripWS line = '#' :: r) →
        batch_step env ds st line = st) ∧
    (∀ (env : Env) (s : List Char) (st : BatchState) (line : List Char),
        stripWS line ≠ [] → (∀ r, stripWS line ≠ '#' :: r) →
        ¬ ',' ∈ stripWS line → s ≠ [] →
        batch_step env (some s) st line =
          (match auto_insert_hack env st.db (String.mk (stripWS line)) (String.mk s) with
            | (.ok _, db') => { st with success_count := st.success_count + 1, db := db' }
            | (.error e, db') =>
              { st with failed := st.failed ++ [(String.mk (stripWS line), e)], db := db' })) ∧
    (batch_insert_from_file envA dbE
        ["# projects".toList, "".toList, "https://github.com/acme/alpha, winner".toList,
         "https://github.com/acme/beta".toList, "https://github.com/acme/gamma, participant".toList]
        none).success_count = 2 ∧
    (batch_insert_from_file envA dbE
        ["# projects".toList, "".toList, "https://github.com/acme/alpha, winner".toList,
         "https://github.com/acme/beta".toList, "https://github.com/acme/gamma, participant".toList]
        none).failed = [("https://github.com/acme/beta", "No status")] := by
  refine ⟨?_, ?_, ?_, ?_⟩
  · intro env ds st line h
    rcases h with h | ⟨r, hr⟩
    · simp [batch_step, h]
    · simp [batch_step, hr, dropLit]
  · intro env s st line h1 h2 h3 h4
    have hd : dropLit ['#'] (stripWS line) = none := by
      cases hsw : stripWS line with
      | nil => exact absurd hsw h1
      | cons c r =>
        by_cases hc : ('#' == c) = true
        · have hc' : c = '#' := (eq_of_beq hc).symm
          exact absurd (hsw.trans (by rw [hc'])) (h2 r)
        · simp [dropLit, hc]
    simp [batch_step, h1, hd, h3, h4]
  · decide
  · decide

/-- Witness for C2: a blank line and a comment line are skipped, and a
comma-free line is processed with the provided default status. -/
theorem batch_insert_spec_witness :
    batch_step envA none ⟨0, [], dbE⟩ "   ".toList = ⟨0, [], dbE⟩ ∧
    batch_step envA none ⟨0, [], dbE⟩ "# projects".toList = ⟨0, [], dbE⟩ ∧
    batch_step envA (some "winner".toList) ⟨0, [], dbE⟩ url0.toList =
      ⟨1, [], ⟨[rowA], 2⟩⟩ := by
  refine ⟨?_, ?_, ?_⟩
  · exact batch_insert_spec.1 envA none ⟨0, [], dbE⟩ "   ".toList (.inl (by decide))
  · exact batch_insert_spec.1 envA none ⟨0, [], dbE⟩ "# projects".toList
      (.inr ⟨" projects".toList, by decide⟩)
  · refine (batch_insert_spec.2.1 envA "winner".toList ⟨0, [], dbE⟩ url0.toList
      (by decide) ?_ (by decide) (by decide)).trans (by decide)
    intro r h
    have h0 : (stripWS url0.toList).head? = some 'h' := by decide
    rw [h] at h0
    simp at h0

/-! ## C7: remote-check outcomes of the validator -/

/-- C7: for a URL passing the format check, the validator is invalid on a 404
answer, valid (fail open) on a 403 answer, invalid on any other non-200
status, and invalid on a raised network error. -/
theorem validate_remote_outcomes (url u r : List Char)
    (hp : parse_github_url url = some (u, r)) :
    (∀ (fetch : String → HttpResult) (e : String),
        fetch (mk_api_url u (rstrip_git r)) = .netError e →
        validate_github_url fetch url =
          (false, some ("Network error checking repository: " ++ e))) ∧
    (∀ (fetch : String → HttpResult) (hn : Bool),
        fetch (mk_api_url u (rstrip_git r)) = .status 404 hn →
        validate_github_url fetch url =
          (false, some ("Repository not found: " ++ String.mk u ++ "/" ++
            String.mk (rstrip_git r) ++ " (404)"))) ∧
    (∀ (fetch : String → HttpResult) (hn : Bool),
        fetch (mk_api_url u (rstrip_git r)) = .status 403 hn →
        validate_github_url fetch url = (true, none)) ∧
    (∀ (fetch : String → HttpResult) (c : Nat) (hn : Bool),
        c ≠ 200 → c ≠ 403 → c ≠ 404 →
        fetch (mk_api_url u (rstrip_git r)) = .status c hn →
        validate_github_url fetch url =
          (false, some ("Could not verify repository (HTTP " ++ toString c ++ ")"))) := by
  refine ⟨?_, ?_, ?_, ?_⟩
  · intro fetch e hf
    simp [validate_github_url, hp, hf, remote_check]
  · intro fetch hn hf
    simp [validate_github_url, hp, hf, remote_check]
  · intro fetch hn hf
    simp [validate_github_url, hp, hf, remote_check]
  · intro fetch c hn h200 h403 h404 hf
    simp [validate_github_url, hp, hf, remote_check, h200, h403, h404]

/-- Witness for C7 on the format-valid `url0` and four concrete existence
checks. -/
theorem validate_remote_outcomes_witness :
    validate_github_url fetchNet url0.toList =
      (false, some "Network error checking repository: boom") ∧
    validate_github_url fetch404 url0.toList =
      (false, some "Repository not found: acme/widge (404)") ∧
    validate_github_url fetch403 url0.toList = (true, none) ∧
    validate_github_url fetch500 url0.toList =
      (false, some "Could not verify repository (HTTP 500)") := by
  have h := validate_remote_outcomes url0.toList "acme".toList "widget".toList (by decide)
  refine ⟨(h.1 fetchNet "boom" rfl).trans (by decide),
          (h.2.1 fetch404 true rfl).trans (by decide),
          h.2.2.1 fetch403 false rfl,
          (h.2.2.2 fetch500 500 true (by decide) (by decide) (by decide) rfl).trans (by decide)⟩

/-! ## C9: the remote lookup queries the rstripped repository name -/

/-- C9: the existence lookup of the validator targets the repository name
with all trailing characters from `{'.', 'g', 'i', 't'}` removed — for
`url0` (repository `widget`) the lookup goes to repository `widge` — so the
verdict is decided by a different repository than the one submitted. -/
theorem lookup_uses_rstripped_repo :
    (∀ (url u r : List Char) (fetch : String → HttpResult),
        parse_github_url url = some (u, r) →
        api_url_for url = some (mk_api_url u (rstrip_git r)) ∧
        validate_github_url fetch url =
          remote_check u (rstrip_git r) (fetch (mk_api_url u (rstrip_git r)))) ∧
    (∀ r : List Char, ∃ dropped : List Char,
        r = rstrip_git r ++ dropped ∧
        ∀ c ∈ dropped, (c == '.' || c == 'g' || c == 'i' || c == 't') = true) ∧
    (parse_github_url url0.toList = some ("acme".toList, "widget".toList) ∧
     rstrip_git "widget".toList = "widge".toList ∧
     api_url_for url0.toList = some "https://api.github.com/repos/acme/widge" ∧
     ("widge" : String) ≠ "widget") := by
  refine ⟨?_, ?_, by decide, by decide, by decide, by decide⟩
  · intro url u r fetch hp
    exact ⟨by simp [api_url_for, hp], by simp [validate_github_url, hp]⟩
  · intro r
    refine ⟨(r.reverse.takeWhile (fun c => c == '.' || c == 'g' || c == 'i' || c == 't')).reverse,
      ?_, ?_⟩
    · conv_lhs => rw [← List.reverse_reverse r,
        ← List.takeWhile_append_dropWhile
          (p := fun c => c == '.' || c == 'g' || c == 'i' || c == 't') (l := r.reverse)]
      rw [List.reverse_append]
      rfl
    · intro c hc
      have hc' := List.mem_reverse.mp hc
      exact List.mem_takeWhile_imp
        (p := fun c => c == '.' || c == 'g' || c == 'i' || c == 't') hc'

/-- Witness for C9 at `url0` and the 404 existence check. -/
theorem lookup_uses_rstripped_repo_witness :
    api_url_for url0.toList = some (mk_api_url "acme".toList (rstrip_git "widget".toList)) ∧
    validate_github_url fetch404 url0.toList =
      remote_check "acme".toList (rstrip_git "widget".toList)
        (fetch404 (mk_api_url "acme".toList (rstrip_git "widget".toList))) :=
  lookup_uses_rstripped_repo.1 url0.toList "acme".toList "widget".toList fetch404 (by decide)

/-! ## C8: non-matching strings are rejected without a remote lookup -/

theorem getLast?_some_of_ne_nil {l : List Char} (h : l ≠ []) :
    ∃ c, l.getLast? = some c ∧ c ∈ l := by
  cases hr : l.reverse with
  | nil => exact absurd (List.reverse_eq_nil_iff.mp hr) h
  | cons d rev =>
    refine ⟨d, ?_, ?_⟩
    · rw [← List.head?_reverse, hr]
      rfl
    · rw [← List.mem_reverse, hr]
      simp

theorem eq_dropLast_append_getLast {l : List Char} {c : Char}
    (h : l.getLast? = some c) : l = l.dropLast ++ [c] := by
  have h' : l.reverse.head? = some c := by rw [List.head?_reverse]; exact h
  cases hr : l.reverse with
  | nil => rw [hr] at h'; simp at h'
  | cons d rev =>
    rw [hr] at h'
    have hd : d = c := by simpa using h'
    have hl : l = rev.reverse ++ [d] := by
      rw [← List.reverse_reverse l, hr, List.reverse_cons]
    rw [hl, List.dropLast_concat, hd]

/-- The last character of any string of the spec shape is `'/'` or a
repository character; in particular it is never a newline. -/
theorem shape_getLast {url : List Char} (h : SpecShape url) :
    ∃ c, url.getLast? = some c ∧ (c = '/' ∨ repoChar c = true) := by
  obtain ⟨scheme, www, owner, repo, git, slash, hs, hw, ho, hoc, hr, hrc, hg, hsl, hurl⟩ := h
  subst hurl
  rcases hsl with hsl | hsl <;> subst hsl
  · rw [List.append_nil]
    rcases hg with hg | hg <;> subst hg
    · rw [List.append_nil, List.getLast?_append]
      obtain ⟨c, hc, hmem⟩ := getLast?_some_of_ne_nil hr
      rw [hc]
      exact ⟨c, rfl, Or.inr (hrc c hmem)⟩
    · rw [List.getLast?_append]
      exact ⟨'t', rfl, Or.inr (by decide)⟩
  · rw [List.getLast?_append]
    exact ⟨'/', rfl, Or.inl rfl⟩

theorem shape_getLast_ne_newline {url : List Char} (h : SpecShape url) :
    ¬ url.getLast? = some '\n' := by
  obtain ⟨c, hc, hor⟩ := shape_getLast h
  intro hn
  rw [hc] at hn
  obtain rfl : c = '\n' := by simpa using hn
  rcases hor with hor | hor
  · exact absurd hor (by decide)
  · exact absurd hor (by decide)

/-- Every string the full regex accepts is of the extended shape. -/
theorem shapeNL_of_parse {url : List Char} {p : List Char × List Char}
    (h : parse_github_url url = some p) : SpecShapeNL url := by
  obtain ⟨u, r⟩ := p
  unfold parse_github_url chomp_newline at h
  by_cases hn : url.getLast? = some '\n'
  · rw [if_pos hn] at h
    exact Or.inr ⟨url.dropLast, eq_dropLast_append_getLast hn, shape_of_parse h⟩
  · rw [if_neg hn] at h
    exact Or.inl (shape_of_parse h)

/-- Every string of the extended shape is accepted by the full regex. -/
theorem parse_isSome_of_shapeNL {url : List Char} (h : SpecShapeNL url) :
    (parse_github_url url).isSome = true := by
  unfold parse_github_url chomp_newline
  rcases h with h | ⟨u, rfl, h⟩
  · rw [if_neg (shape_getLast_ne_newline h)]
    exact parse_isSome_of_shape h
  · rw [if_pos (by rw [List.getLast?_append]; rfl), List.dropLast_concat]
    exact parse_isSome_of_shape h

/-- Counterexample to C8 as stated: `"https://github.com/acme/widget\n"`
does not match the claimed shape (its last character is a newline, which no
part of the shape can produce), yet the code performs the remote lookup —
Python `$` also matches just before one trailing newline — and with a 403
answer even declares the URL valid. -/
theorem invalid_format_no_lookup_counterexample :
    ¬ SpecShape "https://github.com/acme/widget\n".toList ∧
    api_url_for "https://github.com/acme/widget\n".toList =
      some "https://api.github.com/repos/acme/widge" ∧
    validate_github_url fetch403 "https://github.com/acme/widget\n".toList = (true, none) := by
  refine ⟨?_, by decide, by decide⟩
  intro hs
  exact shape_getLast_ne_newline hs (by decide)

/-- C8 (amended): every input that does not decompose as
`scheme://[www.]github.com/owner/repo[.git][/]` even after allowing the one
trailing newline that Python `$` tolerates (the shape `SpecShapeNL`) is
rejected by `validate_github_url` with the format error message, and no
remote lookup is performed (`api_url_for` is `none`). -/
theorem invalid_format_no_lookup (url : List Char) (fetch : String → HttpResult)
    (h : ¬ SpecShapeNL url) :
    validate_github_url fetch url =
      (false, some "Invalid GitHub URL format. Expected: https://github.com/username/repo") ∧
    api_url_for url = none := by
  cases hp : parse_github_url url with
  | some p => exact absurd (shapeNL_of_parse hp) h
  | none => exact ⟨by simp [validate_github_url, hp], by simp [api_url_for, hp]⟩

/-- Witness for the amended C8 at a string without the extended URL shape. -/
theorem invalid_format_no_lookup_witness :
    validate_github_url fetch404 "notaurl".toList =
      (false, some "Invalid GitHub URL format. Expected: https://github.com/username/repo") ∧
    api_url_for "notaurl".toList = none := by
  refine invalid_format_no_lookup "notaurl".toList fetch404 ?_
  intro hs
  have hsome := parse_isSome_of_shapeNL hs
  rw [show parse_github_url "notaurl".toList = none from by decide] at hsome
  simp at hsome

/-! ## C3: markdown fence stripping preserves the parsed object -/

/-- C3: for every JSON text `t` (backtick-free, as JSON printed outside a
fence is), `parse_json_response` returns the same parsed object on `t`
wrapped in a ```` ```json ```` fence or in a plain ```` ``` ```` fence as on
the raw `t`; with no fence present the raw (stripped) text is handed to
`json.loads`; and with several fences present the contents of the first
fence win, as the concrete two-fence text shows. -/
theorem parse_json_response_fences {J : Type} (loads : List Char → J) (t : List Char)
    (ht : ∀ c ∈ t, c ≠ btick) :
    parse_json_response loads (wrapJson t) = parse_json_response loads t ∧
    parse_json_response loads (wrapPlain t) = parse_json_response loads t ∧
    stripFence t = stripWS t ∧
    stripFence "```\nA\n```\n```\nB\n```".toList = ['A'] := by
  refine ⟨?_, ?_, stripFence_no_fence ht, by decide⟩
  · unfold parse_json_response
    rw [stripFence_wrapJson ht, stripFence_no_fence ht]
  · unfold parse_json_response
    rw [stripFence_wrapPlain ht, stripFence_no_fence ht]

/-- Witness for C3 at the concrete JSON text `" 7 "` with the identity for
`json.loads`. -/
theorem parse_json_response_fences_witness :
    parse_json_response (fun l => l) (wrapJson " 7 ".toList) =
      parse_json_response (fun l => l) " 7 ".toList ∧
    parse_json_response (fun l => l) (wrapPlain " 7 ".toList) =
      parse_json_response (fun l => l) " 7 ".toList ∧
    stripFence " 7 ".toList = stripWS " 7 ".toList ∧
    stripFence "```\nA\n```\n```\nB\n```".toList = ['A'] :=
  parse_json_response_fences (fun l => l) " 7 ".toList (by decide)

end HackWreck
